import Mathlib

/-!
Chain-of-responsibility log handlers (`main.cpp`)

A shallow embedding of the C++ program: the message value, the handler
objects linked through `next_` pointers, the virtual `handle` call with its
four overrides, and the driver `main` with its `try`/`catch` block.

The process's environment is made explicit: standard output and standard
error are byte strings that grow, the file system maps a path to the state
of the file behind it, and a ghost list records which objects had `handle`
entered.  A thrown `std::runtime_error` is a value returned next to the
state reached when it was thrown.
-/

namespace LogChain

/-! ## Data model -/

/-- The `enum class LogType`. -/
inductive LogType
  | Warning
  | Error
  | FatalError
  | Unknown
  deriving DecidableEq, Repr

/-- The class `LogMessage`: a category and a text, fixed at construction. -/
structure LogMessage where
  type_ : LogType
  message_ : String
  deriving DecidableEq, Repr

/-- The accessor `LogMessage::type()`. -/
def LogMessage.type (m : LogMessage) : LogType := m.type_

/-- The accessor `LogMessage::message()`. -/
def LogMessage.message (m : LogMessage) : String := m.message_

/-- What a `const char*` to the buffer of a `std::string` denotes (the
result of `c_str()` read as a C string): the characters up to the first
NUL. -/
def c_str (s : String) : String :=
  ⟨s.data.takeWhile (fun c => c != Char.ofNat 0)⟩

/-- A `std::runtime_error`: the only exception type the program throws. It
is constructed from a `std::string`, the argument `what_arg`. -/
structure runtime_error where
  what_arg : String
  deriving DecidableEq, Repr

/-- The member `what()`: it returns a `const char*`, so the description it
gives is the constructor argument up to its first NUL. -/
def runtime_error.what (e : runtime_error) : String := c_str e.what_arg

/-- What `std::ofstream(path, std::ios::app)` finds at a path. -/
inductive FileState
  /-- Opening for append fails (`is_open()` is false). -/
  | unopenable
  /-- There is no file yet; opening for append creates it empty. -/
  | absent
  /-- The file is there with these bytes; opening for append keeps them. -/
  | content (bytes : String)
  deriving DecidableEq, Repr

/-- The environment a run acts on. `calls` is ghost state: the addresses of
the objects whose `handle` was entered, oldest first. -/
structure State where
  stdout : String
  stderr : String
  fs : String → FileState
  calls : List Nat

/-- The dynamic type of a handler object, with the fields that type adds
(`filepath_` for `ErrorHandler`). -/
inductive HandlerKind
  | LogHandler
  | FatalErrorHandler
  | ErrorHandler (filepath_ : String)
  | WarningHandler
  | UnknownHandler
  deriving DecidableEq, Repr

/-- A handler object: its dynamic type and the base-class field `next_`
(`none` is `nullptr`). -/
structure Node where
  kind : HandlerKind
  next_ : Option Nat
  deriving DecidableEq, Repr

/-- The objects alive, addressed by position. -/
abbrev Heap := List Node

/-- How a call ends: it returns (`none`) or a `std::runtime_error` leaves it. -/
abbrev Thrown := Option runtime_error

/-- The result of running a call from a state: `none` when the recursion
budget ran out or a pointer was dangling, else the state reached and how
the call ended. -/
abbrev Run := Option (State × Thrown)

/-! ## Operations -/

/-- A newly constructed object: `next_ = nullptr`. -/
def Node.new (k : HandlerKind) : Node := { kind := k, next_ := none }

/-- The method `LogHandler::setNext`, on the object at address `this`. -/
def setNext (H : Heap) (this : Nat) (next : Option Nat) : Heap :=
  H.modify (fun n => { n with next_ := next }) this

/-- Writing `text` and `std::endl` to `std::cout`. -/
def State.cout (s : State) (text : String) : State :=
  { s with stdout := s.stdout ++ text ++ "\n" }

/-- Writing `text` and `std::endl` to `std::cerr`. -/
def State.cerr (s : State) (text : String) : State :=
  { s with stderr := s.stderr ++ text ++ "\n" }

/-- The file system after the file at `path` has been given `bytes`. -/
def writeFile (fs : String → FileState) (path : String) (bytes : String) :
    String → FileState :=
  fun q => if q = path then FileState.content bytes else fs q

/-- The body of `LogHandler::handle`: delegate to `next_` when it is set,
else return. `virt` is the virtual call on an address. -/
def LogHandler.handle (virt : Nat → LogMessage → State → Run)
    (next_ : Option Nat) (message : LogMessage) (s : State) : Run :=
  match next_ with
  | some next => virt next message s
  | none => some (s, none)

/-- The body of `FatalErrorHandler::handle`; `base` is `LogHandler::handle`
on the same object. -/
def FatalErrorHandler.handle (base : LogMessage → State → Run)
    (message : LogMessage) (s : State) : Run :=
  if message.type = LogType.FatalError then
    some (s, some ⟨"Fatal Error: " ++ message.message⟩)
  else
    base message s

/-- The body of `ErrorHandler::handle`. -/
def ErrorHandler.handle (filepath_ : String) (base : LogMessage → State → Run)
    (message : LogMessage) (s : State) : Run :=
  if message.type = LogType.Error then
    match s.fs filepath_ with
    | FileState.unopenable =>
      some (s.cerr ("Failed to open file: " ++ filepath_), none)
    | FileState.absent =>
      let bytes1 := "Error: " ++ message.message ++ "\n"
      some ({ s with fs := writeFile s.fs filepath_ bytes1 }, none)
    | FileState.content bytes =>
      let bytes1 := bytes ++ "Error: " ++ message.message ++ "\n"
      some ({ s with fs := writeFile s.fs filepath_ bytes1 }, none)
  else
    base message s

/-- The body of `WarningHandler::handle`. -/
def WarningHandler.handle (base : LogMessage → State → Run)
    (message : LogMessage) (s : State) : Run :=
  if message.type = LogType.Warning then
    some (s.cout ("Warning: " ++ message.message), none)
  else
    base message s

/-- The body of `UnknownHandler::handle`. -/
def UnknownHandler.handle (base : LogMessage → State → Run)
    (message : LogMessage) (s : State) : Run :=
  if message.type = LogType.Unknown then
    some (s, some ⟨"Unknown message: " ++ message.message⟩)
  else
    base message s

/-- The virtual call `p->handle(message)`: the override of the dynamic type
of the object at `p` runs. `fuel` bounds the depth of nested calls. -/
def handle (H : Heap) : Nat → Nat → LogMessage → State → Run
  | 0, _, _, _ => none
  | fuel + 1, p, message, s =>
    match H[p]? with
    | none => none
    | some node =>
      let base := LogHandler.handle (fun q m t => handle H fuel q m t) node.next_
      let s1 := { s with calls := s.calls ++ [p] }
      match node.kind with
      | HandlerKind.LogHandler => base message s1
      | HandlerKind.FatalErrorHandler => FatalErrorHandler.handle base message s1
      | HandlerKind.ErrorHandler filepath_ =>
        ErrorHandler.handle filepath_ base message s1
      | HandlerKind.WarningHandler => WarningHandler.handle base message s1
      | HandlerKind.UnknownHandler => UnknownHandler.handle base message s1

/-- The statements of a `try` block that dispatch `messages` in order from
`head`: a throw ends the block, the statements after it do not run. -/
def tryBlock (H : Heap) (fuel head : Nat) : List LogMessage → State → Run
  | [], s => some (s, none)
  | message :: rest, s =>
    match handle H fuel head message s with
    | none => none
    | some (s1, some e) => some (s1, some e)
    | some (s1, none) => tryBlock H fuel head rest s1

/-- The clause `catch (const std::runtime_error& e)` of `main`: it writes the
C string `e.what()` after the literal. -/
def catchClause (e : runtime_error) (s : State) : State :=
  s.cerr ("Caught exception: " ++ e.what)

/-- A `try` block of dispatches followed by the catch clause of `main`. -/
def tryCatchBlock (H : Heap) (fuel head : Nat) (messages : List LogMessage)
    (s : State) : Option State :=
  match tryBlock H fuel head messages s with
  | none => none
  | some (s1, some e) => some (catchClause e s1)
  | some (s1, none) => some s1

/-- The four objects `main` constructs, in declaration order: `fatalHandler`
at address 0, `errorHandler` at 1, `warningHandler` at 2, `unknownHandler`
at 3. The log path is a parameter; `main` passes `error_log.txt`. -/
def freshNodes (path : String) : Heap :=
  [Node.new HandlerKind.FatalErrorHandler,
   Node.new (HandlerKind.ErrorHandler path),
   Node.new HandlerKind.WarningHandler,
   Node.new HandlerKind.UnknownHandler]

/-- The wiring of `main`: three `setNext` calls. -/
def wired (path : String) : Heap :=
  setNext (setNext (setNext (freshNodes path) 0 (some 1)) 1 (some 2)) 2 (some 3)

/-- The four demo messages in the order `main` dispatches them. -/
def demoMessages : List LogMessage :=
  [⟨LogType.Warning, "This is a warning message."⟩,
   ⟨LogType.Error, "This is an error message."⟩,
   ⟨LogType.FatalError, "This is a fatal error message."⟩,
   ⟨LogType.Unknown, "This is an unknown message."⟩]

/-- The function `main`: build and wire the objects, run the `try` block
with its catch clause, return 0. -/
def main (s : State) : Option (State × Int) :=
  match tryCatchBlock (wired "error_log.txt") 4 0 demoMessages s with
  | none => none
  | some s1 => some (s1, 0)

/-- A process that has written nothing and sees no file at any path. -/
def emptyWorld : State :=
  { stdout := "", stderr := "", fs := fun _ => FileState.absent, calls := [] }

/-- Whether the override of this dynamic type takes a message of category
`t` itself (the test `message.type() == LogType::...` of its `handle`);
the base class takes none. -/
def accepts : HandlerKind → LogType → Bool
  | HandlerKind.LogHandler, _ => false
  | HandlerKind.FatalErrorHandler, t => t = LogType.FatalError
  | HandlerKind.ErrorHandler _, t => t = LogType.Error
  | HandlerKind.WarningHandler, t => t = LogType.Warning
  | HandlerKind.UnknownHandler, t => t = LogType.Unknown

/-- Following `next_` from the pointer `p` passes through the objects at
`addrs`, in this order, and the last of them points to `q`. -/
def Links (H : Heap) : Option Nat → List Nat → Option Nat → Prop
  | p, [], q => p = q
  | p, a :: rest, q =>
    p = some a ∧
      match H[a]? with
      | none => False
      | some node => Links H node.next_ rest q

/-- The bytes a file holds before an append: none when it is not there. -/
def FileState.bytes : FileState → String
  | FileState.content b => b
  | _ => ""

/-- No object at `addrs` takes a message of category `t` itself. -/
def NoneAccepts (H : Heap) (addrs : List Nat) (t : LogType) : Prop :=
  ∀ a ∈ addrs, ∀ node, H[a]? = some node → accepts node.kind t = false

/-- What an observer outside the process sees of a run: the two streams,
the files, and the exception that left the call, if one did. -/
def observable (r : Run) : Option (String × String × (String → FileState) × Thrown) :=
  r.map (fun x => (x.1.stdout, x.1.stderr, x.1.fs, x.2))

/-- Linking the objects at `order` into a chain in that order: each gets
`setNext` with the one after it, the last with `nullptr`. -/
def linkInOrder (H : Heap) : List Nat → Heap
  | [] => H
  | [a] => setNext H a none
  | a :: b :: rest => linkInOrder (setNext H a (some b)) (b :: rest)

/-- The address of the object that `main` constructs for a category. -/
def homeOf : LogType → Nat
  | LogType.FatalError => 0
  | LogType.Error => 1
  | LogType.Warning => 2
  | LogType.Unknown => 3

/-! ## Definitions for chains of any length -/

/-- The override of dynamic type `k` run on its own, as it runs for a
message the object takes: the base-class body is not reached then, so it
is given no behaviour. -/
def ownAction (k : HandlerKind) (message : LogMessage) (s : State) : Run :=
  match k with
  | HandlerKind.LogHandler => none
  | HandlerKind.FatalErrorHandler => FatalErrorHandler.handle (fun _ _ => none) message s
  | HandlerKind.ErrorHandler filepath_ =>
    ErrorHandler.handle filepath_ (fun _ _ => none) message s
  | HandlerKind.WarningHandler => WarningHandler.handle (fun _ _ => none) message s
  | HandlerKind.UnknownHandler => UnknownHandler.handle (fun _ _ => none) message s

/-- The whole process: the handler objects together with the environment.
`handle` is a non-const member function, so the objects are part of what a
call receives and leaves behind. -/
structure Machine where
  heap : Heap
  env : State

/-- The result of a call on the whole process. -/
abbrev RunOn := Option (Machine × Thrown)

/-- The body of `LogHandler::handle`, on the whole process. -/
def LogHandler.handleOn (virt : Nat → LogMessage → Machine → RunOn)
    (next_ : Option Nat) (message : LogMessage) (M : Machine) : RunOn :=
  match next_ with
  | some next => virt next message M
  | none => some (M, none)

/-- The body of `FatalErrorHandler::handle`, on the whole process. -/
def FatalErrorHandler.handleOn (base : LogMessage → Machine → RunOn)
    (message : LogMessage) (M : Machine) : RunOn :=
  if message.type = LogType.FatalError then
    some (M, some ⟨"Fatal Error: " ++ message.message⟩)
  else
    base message M

/-- The body of `ErrorHandler::handle`, on the whole process. -/
def ErrorHandler.handleOn (filepath_ : String) (base : LogMessage → Machine → RunOn)
    (message : LogMessage) (M : Machine) : RunOn :=
  if message.type = LogType.Error then
    match M.env.fs filepath_ with
    | FileState.unopenable =>
      some ({ M with env := M.env.cerr ("Failed to open file: " ++ filepath_) }, none)
    | FileState.absent =>
      let bytes1 := "Error: " ++ message.message ++ "\n"
      some ({ M with env := { M.env with fs := writeFile M.env.fs filepath_ bytes1 } }, none)
    | FileState.content bytes =>
      let bytes1 := bytes ++ "Error: " ++ message.message ++ "\n"
      some ({ M with env := { M.env with fs := writeFile M.env.fs filepath_ bytes1 } }, none)
  else
    base message M

/-- The body of `WarningHandler::handle`, on the whole process. -/
def WarningHandler.handleOn (base : LogMessage → Machine → RunOn)
    (message : LogMessage) (M : Machine) : RunOn :=
  if message.type = LogType.Warning then
    some ({ M with env := M.env.cout ("Warning: " ++ message.message) }, none)
  else
    base message M

/-- The body of `UnknownHandler::handle`, on the whole process. -/
def UnknownHandler.handleOn (base : LogMessage → Machine → RunOn)
    (message : LogMessage) (M : Machine) : RunOn :=
  if message.type = LogType.Unknown then
    some (M, some ⟨"Unknown message: " ++ message.message⟩)
  else
    base message M

/-- The virtual call `p->handle(message)` on the whole process: the object
is looked up in the objects the call receives, and the call leaves behind
the objects together with the environment. -/
def handleOn : Nat → Nat → LogMessage → Machine → RunOn
  | 0, _, _, _ => none
  | fuel + 1, p, message, M =>
    match M.heap[p]? with
    | none => none
    | some node =>
      let base := LogHandler.handleOn (fun q m N => handleOn fuel q m N) node.next_
      let M1 := { M with env := { M.env with calls := M.env.calls ++ [p] } }
      match node.kind with
      | HandlerKind.LogHandler => base message M1
      | HandlerKind.FatalErrorHandler => FatalErrorHandler.handleOn base message M1
      | HandlerKind.ErrorHandler filepath_ =>
        ErrorHandler.handleOn filepath_ base message M1
      | HandlerKind.WarningHandler => WarningHandler.handleOn base message M1
      | HandlerKind.UnknownHandler => UnknownHandler.handleOn base message M1

/-- What one call adds to the environment: bytes on standard output, bytes
on standard error, bytes appended to one file, the objects entered, and
the exception that leaves the call. -/
structure Effect where
  out : String
  err : String
  file : Option (String × String)
  entered : List Nat
  thrown : Thrown

/-- The environment after an effect has been added to it. -/
def Effect.after (e : Effect) (s : State) : State :=
  { stdout := s.stdout ++ e.out
    stderr := s.stderr ++ e.err
    fs :=
      match e.file with
      | none => s.fs
      | some (path, bytes) => writeFile s.fs path ((s.fs path).bytes ++ bytes)
    calls := s.calls ++ e.entered }

/-- Two environments in which the same files can be opened. -/
def SameOpen (s t : State) : Prop :=
  ∀ q, s.fs q = FileState.unopenable ↔ t.fs q = FileState.unopenable

/-- The design note's outcome of asking one node: it handled the message
with an effect on the environment, it forwards, or it fails with a
description. -/
inductive Outcome
  | Handled (effect : State → State)
  | Forward
  | Fail (description : String)

/-- The design note's per-node interface, from the table of variants: a
node whose category matches handles (Warning: a line on standard output;
Error: a line appended to the file, or the diagnostic when the file cannot
be opened) or fails (FatalError, Unknown); any other node forwards. -/
def nodeOutcome (k : HandlerKind) (m : LogMessage) : Outcome :=
  match k, m.type with
  | HandlerKind.FatalErrorHandler, LogType.FatalError =>
    Outcome.Fail ("Fatal Error: " ++ m.message)
  | HandlerKind.ErrorHandler path, LogType.Error =>
    Outcome.Handled (fun s =>
      if s.fs path = FileState.unopenable then
        s.cerr ("Failed to open file: " ++ path)
      else
        let line := "Error: " ++ m.message ++ "\n"
        { s with fs := writeFile s.fs path ((s.fs path).bytes ++ line) })
  | HandlerKind.WarningHandler, LogType.Warning =>
    Outcome.Handled (fun s => s.cout ("Warning: " ++ m.message))
  | HandlerKind.UnknownHandler, LogType.Unknown =>
    Outcome.Fail ("Unknown message: " ++ m.message)
  | _, _ => Outcome.Forward

/-- The design note's chain driver: walk the ordered node sequence, stop at
the first outcome that is not Forward, drop the message when the sequence
is exhausted. -/
def chainDriver : List HandlerKind → LogMessage → State → State × Thrown
  | [], _, s => (s, none)
  | k :: rest, m, s =>
    match nodeOutcome k m with
    | Outcome.Handled effect => (effect s, none)
    | Outcome.Forward => chainDriver rest m s
    | Outcome.Fail description => (s, some ⟨description⟩)

/-- The dynamic types of the objects at `addrs`, in order. -/
def kindsAt (H : Heap) (addrs : List Nat) : List HandlerKind :=
  addrs.filterMap (fun a => (H[a]?).map Node.kind)

/-! ## Unfolding lemmas -/

theorem wired_eq (path : String) :
    wired path =
      [⟨HandlerKind.FatalErrorHandler, some 1⟩, ⟨HandlerKind.ErrorHandler path, some 2⟩,
       ⟨HandlerKind.WarningHandler, some 3⟩, ⟨HandlerKind.UnknownHandler, none⟩] := rfl

theorem handle_succ (H : Heap) (fuel p : Nat) (m : LogMessage) (s : State) :
    handle H (fuel + 1) p m s =
      match H[p]? with
      | none => none
      | some node =>
        let base := LogHandler.handle (fun q m t => handle H fuel q m t) node.next_
        let s1 := { s with calls := s.calls ++ [p] }
        match node.kind with
        | HandlerKind.LogHandler => base m s1
        | HandlerKind.FatalErrorHandler => FatalErrorHandler.handle base m s1
        | HandlerKind.ErrorHandler filepath_ => ErrorHandler.handle filepath_ base m s1
        | HandlerKind.WarningHandler => WarningHandler.handle base m s1
        | HandlerKind.UnknownHandler => UnknownHandler.handle base m s1 := rfl

/-- An object that does not take the message itself hands it to `next_`
unchanged: its override runs the base-class body. -/
theorem handle_forward (H : Heap) (fuel p : Nat) (m : LogMessage) (s : State)
    (node : Node) (hp : H[p]? = some node) (hno : accepts node.kind m.type = false) :
    handle H (fuel + 1) p m s =
      LogHandler.handle (fun q m t => handle H fuel q m t) node.next_ m
        { s with calls := s.calls ++ [p] } := by
  rw [handle_succ, hp]
  cases hk : node.kind <;>
    simp_all [accepts, FatalErrorHandler.handle, ErrorHandler.handle,
      WarningHandler.handle, UnknownHandler.handle]

/-- The descriptions of the two thrown conditions never coincide. -/
theorem unknown_ne_fatal (t t2 : String) :
    "Unknown message: " ++ t ≠ "Fatal Error: " ++ t2 := by
  intro h
  have hd := congrArg String.data h
  simp at hd

/-- A C string that starts with NUL-free characters starts with all of
them: the cut falls in what follows. -/
theorem c_str_append (a t : String) (ha : ∀ c ∈ a.data, (c != Char.ofNat 0) = true) :
    c_str (a ++ t) = a ++ c_str t := by
  apply String.ext
  simp [c_str, String.data_append, List.takeWhile_append_of_pos ha]

/-- A string without NUL is its own C string. -/
theorem c_str_of_no_nul (t : String) (ht : Char.ofNat 0 ∉ t.data) : c_str t = t := by
  apply String.ext
  simp only [c_str]
  apply List.takeWhile_eq_self_iff.mpr
  intro c hc
  simp only [bne_iff_ne, ne_eq]
  intro h
  exact ht (h ▸ hc)

/-- The description `what()` gives of the condition thrown for a FatalError
text. -/
theorem what_fatal (t : String) :
    (runtime_error.mk ("Fatal Error: " ++ t)).what = "Fatal Error: " ++ c_str t :=
  c_str_append "Fatal Error: " t (by decide)

/-- The description `what()` gives of the condition thrown for an Unknown
text. -/
theorem what_unknown (t : String) :
    (runtime_error.mk ("Unknown message: " ++ t)).what = "Unknown message: " ++ c_str t :=
  c_str_append "Unknown message: " t (by decide)

/-! ## The reference chain, one category at a time -/

/-- C2. For every text `t`, a Warning message handled from the head of the
chain main wires (whatever the log path) returns normally after adding the
bytes `Warning: t` and a newline to standard output; standard error and
every file are as before, and the objects entered are the first three. -/
theorem warning_prints_one_line (t path : String) (fuel : Nat) (s : State) :
    handle (wired path) (fuel + 4) 0 ⟨LogType.Warning, t⟩ s =
      some ({ s with stdout := s.stdout ++ "Warning: " ++ t ++ "\n",
                     calls := s.calls ++ [0, 1, 2] }, none) := by
  simp [handle, wired_eq, LogHandler.handle, FatalErrorHandler.handle, ErrorHandler.handle,
    WarningHandler.handle, LogMessage.type, LogMessage.message, State.cout,
    String.append_assoc]

/-- C3. For every text `t`, whenever the log file can be opened (it holds
some bytes `c`, or is absent and then created empty), an Error message
handled from the head of the chain main wires returns normally and leaves
the file holding its prior bytes followed by `Error: t` and a newline; no
other file, and neither stream, changes. -/
theorem error_appends_one_line (t path : String) (fuel : Nat) (s : State)
    (hfile : s.fs path ≠ FileState.unopenable) :
    ∃ s1, handle (wired path) (fuel + 4) 0 ⟨LogType.Error, t⟩ s = some (s1, none) ∧
      s1.fs path = FileState.content ((s.fs path).bytes ++ "Error: " ++ t ++ "\n") ∧
      (∀ q, q ≠ path → s1.fs q = s.fs q) ∧
      s1.stdout = s.stdout ∧ s1.stderr = s.stderr ∧ s1.calls = s.calls ++ [0, 1] := by
  refine ⟨{ s with fs := writeFile s.fs path ((s.fs path).bytes ++ "Error: " ++ t ++ "\n"),
                   calls := s.calls ++ [0, 1] }, ?_, ?_, ?_, rfl, rfl, rfl⟩
  · cases hf : s.fs path with
    | unopenable => exact absurd hf hfile
    | absent =>
      simp [handle, wired_eq, LogHandler.handle, FatalErrorHandler.handle,
        ErrorHandler.handle, LogMessage.type, LogMessage.message, hf, FileState.bytes]
    | content c =>
      simp [handle, wired_eq, LogHandler.handle, FatalErrorHandler.handle,
        ErrorHandler.handle, LogMessage.type, LogMessage.message, hf, FileState.bytes]
  · simp [writeFile]
  · intro q hq
    simp [writeFile, hq]

theorem error_appends_one_line_witness :
    (writeFile emptyWorld.fs "error_log.txt" "old\n") "error_log.txt"
        ≠ FileState.unopenable ∧
      ∃ s1, handle (wired "error_log.txt") (0 + 4) 0 ⟨LogType.Error, "disk full"⟩
          { emptyWorld with fs := writeFile emptyWorld.fs "error_log.txt" "old\n" }
          = some (s1, none) ∧
        s1.fs "error_log.txt" = FileState.content ("old\n" ++ "Error: " ++ "disk full" ++ "\n") ∧
        (∀ q, q ≠ "error_log.txt" →
          s1.fs q = (writeFile emptyWorld.fs "error_log.txt" "old\n") q) ∧
        s1.stdout = "" ∧ s1.stderr = "" ∧ s1.calls = [] ++ [0, 1] :=
  ⟨by decide,
   error_appends_one_line "disk full" "error_log.txt" 0
     { emptyWorld with fs := writeFile emptyWorld.fs "error_log.txt" "old\n" } (by decide)⟩

/-- Forwarding through a run of linked objects none of which takes the
message: the base-class body at the first pointer does what the base-class
body at the pointer behind the run does, once every object of the run has
been entered. -/
theorem forward_through (H : Heap) (m : LogMessage) :
    ∀ (addrs : List Nat) (p q : Option Nat) (k : Nat) (s : State),
      Links H p addrs q → NoneAccepts H addrs m.type →
      LogHandler.handle (fun a m t => handle H (k + addrs.length) a m t) p m s =
        LogHandler.handle (fun a m t => handle H k a m t) q m
          { s with calls := s.calls ++ addrs } := by
  intro addrs
  induction addrs with
  | nil =>
    intro p q k s hl _
    simp only [Links] at hl
    subst hl
    simp
  | cons a rest ih =>
    intro p q k s hl hno
    simp only [Links] at hl
    obtain ⟨hp, hrest⟩ := hl
    subst hp
    cases ha : H[a]? with
    | none => simp [ha] at hrest
    | some node =>
      simp only [ha] at hrest
      have hnode : accepts node.kind m.type = false :=
        hno a (List.mem_cons_self a rest) node ha
      have hno2 : NoneAccepts H rest m.type := fun b hb n hn =>
        hno b (List.mem_cons_of_mem a hb) n hn
      have hfuel : k + (a :: rest).length = (k + rest.length) + 1 := by
        simp [Nat.add_assoc]
      show handle H (k + (a :: rest).length) a m s = _
      rw [hfuel, handle_forward H _ a m s node ha hnode, ih _ _ _ _ hrest hno2]
      simp [List.append_assoc]

/-- C4. For every text `t` and path `p` whose file cannot be opened: when an
Error message, handled from `head`, reaches an `ErrorHandler` configured
with `p` (the objects linked before it, if any, do not take Error messages;
in the chain main wires that is the `FatalErrorHandler` alone), the call
returns normally, standard error gains the bytes `Failed to open file: p`
and a newline, standard output and every file are as before, and the last
object entered is that `ErrorHandler`, whatever its `next_` is. -/
theorem unopenable_file_reports_once (H : Heap) (head a : Nat) (pre : List Nat)
    (next : Option Nat) (p t : String) (fuel : Nat) (s : State)
    (hlinks : Links H (some head) pre (some a))
    (hpre : NoneAccepts H pre LogType.Error)
    (hnode : H[a]? = some ⟨HandlerKind.ErrorHandler p, next⟩)
    (hfile : s.fs p = FileState.unopenable)
    (hfuel : pre.length < fuel) :
    handle H fuel head ⟨LogType.Error, t⟩ s =
      some ({ s with stderr := s.stderr ++ "Failed to open file: " ++ p ++ "\n",
                     calls := s.calls ++ pre ++ [a] }, none) := by
  obtain ⟨k, rfl⟩ : ∃ k, fuel = (k + 1) + pre.length :=
    ⟨fuel - (pre.length + 1), by omega⟩
  have hfwd := forward_through H ⟨LogType.Error, t⟩ pre (some head) (some a) (k + 1) s
    hlinks hpre
  simp only [LogHandler.handle] at hfwd
  rw [hfwd, handle_succ, hnode]
  simp [ErrorHandler.handle, LogMessage.type, hfile, State.cerr, String.append_assoc]

theorem unopenable_file_reports_once_witness :
    Links (wired "/proc/error_log.txt") (some 0) [0] (some 1) ∧
      NoneAccepts (wired "/proc/error_log.txt") [0] LogType.Error ∧
      (wired "/proc/error_log.txt")[1]? =
        some ⟨HandlerKind.ErrorHandler "/proc/error_log.txt", some 2⟩ ∧
      (fun _ => FileState.unopenable) "/proc/error_log.txt" = FileState.unopenable ∧
      [0].length < 4 ∧
      handle (wired "/proc/error_log.txt") 4 0 ⟨LogType.Error, "disk full"⟩
          { emptyWorld with fs := fun _ => FileState.unopenable } =
        some ({ emptyWorld with
                  fs := fun _ => FileState.unopenable,
                  stderr := "" ++ "Failed to open file: " ++ "/proc/error_log.txt" ++ "\n",
                  calls := [] ++ [0] ++ [1] }, none) :=
  ⟨by simp [Links, wired_eq], by simp [NoneAccepts, wired_eq, accepts], rfl, rfl,
   by decide,
   unopenable_file_reports_once (wired "/proc/error_log.txt") 0 1 [0] (some 2)
     "/proc/error_log.txt" "disk full" 4
     { emptyWorld with fs := fun _ => FileState.unopenable }
     (by simp [Links, wired_eq]) (by simp [NoneAccepts, wired_eq, accepts]) rfl rfl
     (by decide)⟩

/-- C5, as the code has it. For every text `t`, a FatalError message handled
by a `FatalErrorHandler` at the head of a chain throws a
`std::runtime_error` constructed from `Fatal Error: ` followed by `t`; the
string it carries, `what()`, is `Fatal Error: ` followed by `t` up to the
first NUL of `t`, so `Fatal Error: ` followed by all of `t` when `t` has no
NUL, and never `t` alone. The head is the only object entered, and neither
stream nor any file changes. -/
theorem fatal_throws_at_head (H : Heap) (head : Nat) (next : Option Nat) (t : String)
    (fuel : Nat) (s : State)
    (hnode : H[head]? = some ⟨HandlerKind.FatalErrorHandler, next⟩) :
    handle H (fuel + 1) head ⟨LogType.FatalError, t⟩ s =
        some ({ s with calls := s.calls ++ [head] }, some ⟨"Fatal Error: " ++ t⟩) ∧
      (runtime_error.mk ("Fatal Error: " ++ t)).what = "Fatal Error: " ++ c_str t ∧
      (Char.ofNat 0 ∉ t.data →
        (runtime_error.mk ("Fatal Error: " ++ t)).what = "Fatal Error: " ++ t) := by
  refine ⟨?_, what_fatal t, fun ht => ?_⟩
  · rw [handle_succ, hnode]
    simp [FatalErrorHandler.handle, LogMessage.type, LogMessage.message]
  · rw [what_fatal, c_str_of_no_nul t ht]

theorem fatal_throws_at_head_witness :
    (wired "error_log.txt")[0]? = some ⟨HandlerKind.FatalErrorHandler, some 1⟩ ∧
      (handle (wired "error_log.txt") (3 + 1) 0 ⟨LogType.FatalError, "disk on fire"⟩
          emptyWorld =
        some ({ emptyWorld with calls := emptyWorld.calls ++ [0] },
          some ⟨"Fatal Error: " ++ "disk on fire"⟩) ∧
        (runtime_error.mk ("Fatal Error: " ++ "disk on fire")).what =
          "Fatal Error: " ++ c_str "disk on fire" ∧
        (Char.ofNat 0 ∉ "disk on fire".data →
          (runtime_error.mk ("Fatal Error: " ++ "disk on fire")).what =
            "Fatal Error: " ++ "disk on fire")) :=
  ⟨rfl, fatal_throws_at_head (wired "error_log.txt") 0 (some 1) "disk on fire" 3
     emptyWorld rfl⟩

/-- C5 as stated fails: the string carried by the condition thrown for the
FatalError text `disk on fire`, its `what()`, is not that text. -/
theorem fatal_payload_is_not_the_text :
    ¬ ∃ s1 e, handle (wired "error_log.txt") 4 0 ⟨LogType.FatalError, "disk on fire"⟩
        emptyWorld = some (s1, some e) ∧ e.what = "disk on fire" := by
  rintro ⟨s1, e, h, hw⟩
  have hthrown : Option.map (fun r => Option.map runtime_error.what r.2)
      (handle (wired "error_log.txt") 4 0 ⟨LogType.FatalError, "disk on fire"⟩ emptyWorld)
      = some (some "disk on fire") := by
    rw [h]; simp [hw]
  exact absurd hthrown (by decide)

/-- C6, as the code has it. For every text `t`, an Unknown message handled
from the head of the chain main wires passes the first three objects and
makes the fourth throw a `std::runtime_error` (the one exception type of the
program) constructed from `Unknown message: ` followed by `t`; the string it
carries, `what()`, is `Unknown message: ` followed by `t` up to the first
NUL of `t`, so followed by all of `t` when `t` has no NUL. That string is
never the `what()` of a condition thrown for a FatalError message, and
neither stream nor any file changes. -/
theorem unknown_throws (t path : String) (fuel : Nat) (s : State) :
    handle (wired path) (fuel + 4) 0 ⟨LogType.Unknown, t⟩ s =
        some ({ s with calls := s.calls ++ [0, 1, 2, 3] },
          some ⟨"Unknown message: " ++ t⟩) ∧
      (runtime_error.mk ("Unknown message: " ++ t)).what = "Unknown message: " ++ c_str t ∧
      (Char.ofNat 0 ∉ t.data →
        (runtime_error.mk ("Unknown message: " ++ t)).what = "Unknown message: " ++ t) ∧
      ∀ t2 : String, (runtime_error.mk ("Unknown message: " ++ t)).what ≠
        (runtime_error.mk ("Fatal Error: " ++ t2)).what := by
  refine ⟨?_, what_unknown t, fun ht => ?_, fun t2 => ?_⟩
  · simp [handle, wired_eq, LogHandler.handle, FatalErrorHandler.handle,
      ErrorHandler.handle, WarningHandler.handle, UnknownHandler.handle, LogMessage.type,
      LogMessage.message]
  · rw [what_unknown, c_str_of_no_nul t ht]
  · rw [what_unknown, what_fatal]
    exact unknown_ne_fatal (c_str t) (c_str t2)

theorem unknown_throws_witness :
    Char.ofNat 0 ∉ "??".data ∧
      (runtime_error.mk ("Unknown message: " ++ "??")).what = "Unknown message: " ++ "??" :=
  ⟨by decide, (unknown_throws "??" "error_log.txt" 0 emptyWorld).2.2.1 (by decide)⟩

/-- C6 as stated fails: the string carried by the condition thrown for the
Unknown text `??`, its `what()`, is not that text. -/
theorem unknown_payload_is_not_the_text :
    ¬ ∃ s1 e, handle (wired "error_log.txt") 4 0 ⟨LogType.Unknown, "??"⟩
        emptyWorld = some (s1, some e) ∧ e.what = "??" := by
  rintro ⟨s1, e, h, hw⟩
  have hthrown : Option.map (fun r => Option.map runtime_error.what r.2)
      (handle (wired "error_log.txt") 4 0 ⟨LogType.Unknown, "??"⟩ emptyWorld)
      = some (some "??") := by
    rw [h]; simp [hw]
  exact absurd hthrown (by decide)

/-- C7, as the code has it. For every text `t`, from the head of the chain
main wires: the description `what()` of the condition thrown for a
FatalError message is `Fatal Error: ` followed by `t` up to the first NUL of
`t`, that of the condition thrown for an Unknown message is
`Unknown message: ` followed by `t` up to the first NUL of `t`; when `t` has
no NUL these are `Fatal Error: t` and `Unknown message: t`. The catch clause
of main adds to standard error the bytes `Caught exception: `, the
description and a newline, and a `try` block that dispatches either message
ends with exactly that line added. -/
theorem caught_description_text (t path : String) (fuel : Nat) (s : State)
    (e : runtime_error) :
    (handle (wired path) (fuel + 4) 0 ⟨LogType.FatalError, t⟩ s).map
          (fun r => r.2.map runtime_error.what) =
        some (some ("Fatal Error: " ++ c_str t)) ∧
      (handle (wired path) (fuel + 4) 0 ⟨LogType.Unknown, t⟩ s).map
          (fun r => r.2.map runtime_error.what) =
        some (some ("Unknown message: " ++ c_str t)) ∧
      (Char.ofNat 0 ∉ t.data → c_str t = t) ∧
      (catchClause e s).stderr = s.stderr ++ "Caught exception: " ++ e.what ++ "\n" ∧
      (catchClause e s).stdout = s.stdout ∧ (catchClause e s).fs = s.fs ∧
      (tryCatchBlock (wired path) (fuel + 4) 0 [⟨LogType.FatalError, t⟩] s).map State.stderr =
        some (s.stderr ++ "Caught exception: " ++ ("Fatal Error: " ++ c_str t) ++ "\n") ∧
      (tryCatchBlock (wired path) (fuel + 4) 0 [⟨LogType.Unknown, t⟩] s).map State.stderr =
        some (s.stderr ++ "Caught exception: " ++ ("Unknown message: " ++ c_str t) ++ "\n") := by
  refine ⟨?_, ?_, c_str_of_no_nul t, ?_, rfl, rfl, ?_, ?_⟩ <;>
    simp [tryCatchBlock, tryBlock, catchClause, State.cerr, handle, wired_eq,
      LogHandler.handle, FatalErrorHandler.handle, ErrorHandler.handle,
      WarningHandler.handle, UnknownHandler.handle, LogMessage.type, LogMessage.message,
      String.append_assoc, what_fatal, what_unknown]

theorem caught_description_text_witness :
    Char.ofNat 0 ∉ "disk on fire".data ∧ c_str "disk on fire" = "disk on fire" :=
  ⟨by decide,
   (caught_description_text "disk on fire" "error_log.txt" 0 emptyWorld
     ⟨"Fatal Error: disk on fire"⟩).2.2.1 (by decide)⟩

/-- C7 as stated fails: for the FatalError text made of `a`, a NUL and `b`,
the description of the thrown condition is not `Fatal Error: ` followed by
the whole text; it is `Fatal Error: a`, and the line the catch clause of
main writes ends there. -/
theorem description_stops_at_nul :
    (¬ ∃ s1 e, handle (wired "error_log.txt") 4 0 ⟨LogType.FatalError, "a\x00b"⟩
        emptyWorld = some (s1, some e) ∧ e.what = "Fatal Error: " ++ "a\x00b") ∧
      (handle (wired "error_log.txt") 4 0 ⟨LogType.FatalError, "a\x00b"⟩ emptyWorld).map
          (fun r => r.2.map runtime_error.what) = some (some "Fatal Error: a") ∧
      (tryCatchBlock (wired "error_log.txt") 4 0 [⟨LogType.FatalError, "a\x00b"⟩]
          emptyWorld).map State.stderr = some "Caught exception: Fatal Error: a\n" := by
  refine ⟨?_, by decide, by decide⟩
  rintro ⟨s1, e, h, hw⟩
  have hthrown : Option.map (fun r => Option.map runtime_error.what r.2)
      (handle (wired "error_log.txt") 4 0 ⟨LogType.FatalError, "a\x00b"⟩ emptyWorld)
      = some (some ("Fatal Error: " ++ "a\x00b")) := by
    rw [h]; simp [hw]
  exact absurd hthrown (by decide)

/-- C8. For every message and every state of the log file, handling the
message from the head of the chain main wires ends (it does not run out of
budget), and it ends in a thrown condition exactly when the category is
FatalError or Unknown; for Warning and Error it returns normally, also when
the file cannot be opened. -/
theorem raises_iff_fatal_or_unknown (m : LogMessage) (path : String) (fuel : Nat)
    (s : State) :
    ∃ s1 thrown, handle (wired path) (fuel + 4) 0 m s = some (s1, thrown) ∧
      (thrown.isSome = true ↔ (m.type = LogType.FatalError ∨ m.type = LogType.Unknown)) := by
  obtain ⟨ty, t⟩ := m
  cases ty <;> cases hf : s.fs path <;>
    simp [handle, wired_eq, LogHandler.handle, FatalErrorHandler.handle,
      ErrorHandler.handle, WarningHandler.handle, UnknownHandler.handle, LogMessage.type,
      LogMessage.message, hf] <;>
    exact ⟨_, _, ⟨rfl, rfl⟩, rfl⟩

/-- C10. For every finite chain (following `next_` from `head` passes the
objects at `addrs` and ends at `nullptr`) and every message that no object
of the chain takes, `handle` from the head returns normally once the budget
covers the chain; neither stream and no file changes, nothing is thrown,
and every object of the chain was entered once, in order. -/
theorem unmatched_message_is_dropped (H : Heap) (head : Nat) (addrs : List Nat)
    (m : LogMessage) (fuel : Nat) (s : State)
    (hlinks : Links H (some head) addrs none)
    (hno : NoneAccepts H addrs m.type)
    (hfuel : addrs.length ≤ fuel) :
    handle H fuel head m s = some ({ s with calls := s.calls ++ addrs }, none) := by
  obtain ⟨k, rfl⟩ : ∃ k, fuel = k + addrs.length := ⟨fuel - addrs.length, by omega⟩
  have hfwd := forward_through H m addrs (some head) none k s hlinks hno
  simp only [LogHandler.handle] at hfwd
  exact hfwd

theorem unmatched_message_is_dropped_witness :
    Links (setNext [Node.new HandlerKind.LogHandler, Node.new HandlerKind.WarningHandler]
        0 (some 1)) (some 0) [0, 1] none ∧
      NoneAccepts (setNext [Node.new HandlerKind.LogHandler,
        Node.new HandlerKind.WarningHandler] 0 (some 1)) [0, 1]
        (LogMessage.mk LogType.Error "disk full").type ∧
      [0, 1].length ≤ 2 ∧
      handle (setNext [Node.new HandlerKind.LogHandler, Node.new HandlerKind.WarningHandler]
          0 (some 1)) 2 0 ⟨LogType.Error, "disk full"⟩ emptyWorld =
        some ({ emptyWorld with calls := emptyWorld.calls ++ [0, 1] }, none) :=
  ⟨by simp [Links, setNext, Node.new], by
     simp [NoneAccepts, setNext, Node.new, accepts, LogMessage.type],
   by decide,
   unmatched_message_is_dropped
     (setNext [Node.new HandlerKind.LogHandler, Node.new HandlerKind.WarningHandler]
       0 (some 1)) 0 [0, 1] ⟨LogType.Error, "disk full"⟩ 2 emptyWorld
     (by simp [Links, setNext, Node.new])
     (by simp [NoneAccepts, setNext, Node.new, accepts, LogMessage.type])
     (by decide)⟩

/-! ## The driver -/

/-- C1, what the code does. With a log file that can be opened, `main`
returns 0 after: standard output gained the warning line, the file gained
the error line, and standard error gained the line for the caught
FatalError condition and nothing more. The catch clause ran once and ended
the `try` block: the objects entered are those of the first three
dispatches (0,1,2 then 0,1 then 0), so the dispatch of the Unknown message
never ran and its line is never printed. -/
theorem main_stops_at_fatal (s : State)
    (hfile : s.fs "error_log.txt" ≠ FileState.unopenable) :
    ∃ s1, main s = some (s1, 0) ∧
      s1.stdout = s.stdout ++ "Warning: This is a warning message.\n" ∧
      s1.fs "error_log.txt" = FileState.content
        ((s.fs "error_log.txt").bytes ++ "Error: This is an error message.\n") ∧
      s1.stderr = s.stderr ++ "Caught exception: Fatal Error: This is a fatal error message.\n" ∧
      s1.calls = s.calls ++ [0, 1, 2, 0, 1, 0] := by
  cases hf : s.fs "error_log.txt" with
  | unopenable => exact absurd hf hfile
  | absent =>
    simp [main, tryCatchBlock, tryBlock, demoMessages, catchClause, State.cerr, State.cout,
      handle, wired_eq, LogHandler.handle, FatalErrorHandler.handle, ErrorHandler.handle,
      WarningHandler.handle, LogMessage.type, LogMessage.message, hf, writeFile,
      FileState.bytes]
    refine ⟨?_, ?_⟩ <;> (simp only [String.append_assoc]; rfl)
  | content c =>
    simp [main, tryCatchBlock, tryBlock, demoMessages, catchClause, State.cerr, State.cout,
      handle, wired_eq, LogHandler.handle, FatalErrorHandler.handle, ErrorHandler.handle,
      WarningHandler.handle, LogMessage.type, LogMessage.message, hf, writeFile,
      FileState.bytes]
    refine ⟨?_, ?_, ?_⟩ <;> (simp only [String.append_assoc]; rfl)

theorem main_stops_at_fatal_witness :
    emptyWorld.fs "error_log.txt" ≠ FileState.unopenable ∧
      ∃ s1, main emptyWorld = some (s1, 0) ∧
        s1.stdout = emptyWorld.stdout ++ "Warning: This is a warning message.\n" ∧
        s1.fs "error_log.txt" = FileState.content
          ((emptyWorld.fs "error_log.txt").bytes ++ "Error: This is an error message.\n") ∧
        s1.stderr = emptyWorld.stderr ++
          "Caught exception: Fatal Error: This is a fatal error message.\n" ∧
        s1.calls = emptyWorld.calls ++ [0, 1, 2, 0, 1, 0] :=
  ⟨by decide, main_stops_at_fatal emptyWorld (by decide)⟩

/-! ## Relinking the four objects -/

/-- The 24 orders of the four addresses. -/
theorem perm_cases (order : List Nat) (h : order.Perm [0, 1, 2, 3]) :
    order ∈ [0, 1, 2, 3].permutations := List.mem_permutations.mpr h

/-- A message that passes a run of objects none of which takes it arrives,
unchanged, at the object behind the run. -/
theorem handle_reaches (H : Heap) (head a : Nat) (pre : List Nat) (m : LogMessage)
    (k : Nat) (s : State) (hlinks : Links H (some head) pre (some a))
    (hpre : NoneAccepts H pre m.type) :
    handle H (k + pre.length) head m s =
      handle H k a m { s with calls := s.calls ++ pre } := by
  have hfwd := forward_through H m pre (some head) (some a) k s hlinks hpre
  simp only [LogHandler.handle] at hfwd
  exact hfwd

/-- The method `setNext` leaves the dynamic type of every object as it is. -/
theorem setNext_kind (H : Heap) (this : Nat) (next : Option Nat) (a : Nat) :
    ((setNext H this next)[a]?).map Node.kind = (H[a]?).map Node.kind := by
  unfold setNext
  rw [List.getElem?_modify]
  cases H[a]? <;> by_cases h : this = a <;> simp [h]

/-- Relinking leaves the dynamic type of every object as it is. -/
theorem linkInOrder_kind (order : List Nat) :
    ∀ (H : Heap) (a : Nat),
      ((linkInOrder H order)[a]?).map Node.kind = (H[a]?).map Node.kind := by
  induction order with
  | nil => intro H a; rfl
  | cons b rest ih =>
    intro H a
    cases rest with
    | nil => exact setNext_kind H b none a
    | cons c rest2 =>
      show ((linkInOrder (setNext H b (some c)) (c :: rest2))[a]?).map Node.kind = _
      rw [ih, setNext_kind]

/-- In every order, the relinked chain leads from its head to the object
`main` constructs for the category, through objects that do not take it. -/
theorem relinked_route (order : List Nat) (horder : order.Perm [0, 1, 2, 3])
    (ty : LogType) (path : String) :
    ∃ pre, Links (linkInOrder (freshNodes path) order) (some (order.headD 0)) pre
        (some (homeOf ty)) ∧
      NoneAccepts (linkInOrder (freshNodes path) order) pre ty ∧
      pre.length ≤ 3 := by
  have hmem := perm_cases order horder
  simp [List.permutations] at hmem
  refine ⟨order.takeWhile (fun a => a != homeOf ty), ?_⟩
  casesm* _ ∨ _ <;> subst order <;> cases ty <;>
    simp [Links, NoneAccepts, linkInOrder, freshNodes, setNext, Node.new, homeOf, accepts,
      List.takeWhile]

/-- At the object `main` constructs for the category of a message, the call
does the same whatever the object's `next_` and the budget left: what it
does on the newly constructed objects with a budget of one call. -/
theorem handle_at_home (H : Heap) (ty : LogType) (t path : String) (k : Nat) (s : State)
    (hkind : (H[homeOf ty]?).map Node.kind = ((freshNodes path)[homeOf ty]?).map Node.kind) :
    handle H (k + 1) (homeOf ty) ⟨ty, t⟩ s =
      handle (freshNodes path) 1 (homeOf ty) ⟨ty, t⟩ s := by
  cases ty <;> simp [homeOf, freshNodes, Node.new] at hkind <;>
    obtain ⟨node, hn, hk⟩ := hkind <;>
    simp [handle, hn, hk, homeOf, freshNodes, Node.new, FatalErrorHandler.handle,
      ErrorHandler.handle, WarningHandler.handle, UnknownHandler.handle, LogMessage.type]

/-- What an observer sees of the call at the home object does not depend on
the ghost list of objects entered before, and the home object is the last
one entered. -/
theorem home_observable (ty : LogType) (t path : String) (s : State) (c : List Nat) :
    observable (handle (freshNodes path) 1 (homeOf ty) ⟨ty, t⟩ { s with calls := c }) =
        observable (handle (freshNodes path) 1 (homeOf ty) ⟨ty, t⟩ s) ∧
      (handle (freshNodes path) 1 (homeOf ty) ⟨ty, t⟩ { s with calls := c }).map
        (fun x => x.1.calls.getLast?) = some (some (homeOf ty)) := by
  cases ty <;> cases hf : s.fs path <;>
    simp [observable, handle, homeOf, freshNodes, Node.new, FatalErrorHandler.handle,
      ErrorHandler.handle, WarningHandler.handle, UnknownHandler.handle, LogMessage.type,
      LogMessage.message, State.cout, State.cerr, hf]

/-- The run from the head of a relinked chain is the run at the home object
of the category, entered after the objects before it. -/
theorem relinked_run (order : List Nat) (horder : order.Perm [0, 1, 2, 3])
    (ty : LogType) (t path : String) (fuel : Nat) (s : State) :
    ∃ pre, handle (linkInOrder (freshNodes path) order) (fuel + 4) (order.headD 0)
        ⟨ty, t⟩ s =
      handle (freshNodes path) 1 (homeOf ty) ⟨ty, t⟩ { s with calls := s.calls ++ pre } := by
  obtain ⟨pre, hl, hno, hlen⟩ := relinked_route order horder ty path
  have hkind := linkInOrder_kind order (freshNodes path) (homeOf ty)
  refine ⟨pre, ?_⟩
  have hfuel : fuel + 4 = (fuel + 3 - pre.length + 1) + pre.length := by omega
  rw [hfuel, handle_reaches _ _ _ pre ⟨ty, t⟩ _ s hl hno, handle_at_home _ ty t path _ _ hkind]

/-- C9. For each of the 24 orders in which the four objects of `main` can be
linked, every message and every state of the log file: handling the message
from the head of the relinked chain shows an observer the same standard
output, standard error, files and normal return or thrown description as
the order `main` wires; the last object entered is the one `main`
constructs for the category, and that object takes the category itself. -/
theorem relinked_order_same_outcome (order : List Nat) (horder : order.Perm [0, 1, 2, 3])
    (m : LogMessage) (path : String) (fuel : Nat) (s : State) :
    observable (handle (linkInOrder (freshNodes path) order) (fuel + 4) (order.headD 0) m s)
        = observable (handle (wired path) (fuel + 4) 0 m s) ∧
      (handle (linkInOrder (freshNodes path) order) (fuel + 4) (order.headD 0) m s).map
          (fun x => x.1.calls.getLast?) = some (some (homeOf m.type)) ∧
      ((freshNodes path)[homeOf m.type]?).map (fun node => accepts node.kind m.type)
        = some true := by
  obtain ⟨ty, t⟩ := m
  obtain ⟨pre, hrun⟩ := relinked_run order horder ty t path fuel s
  obtain ⟨pre0, hrun0⟩ := relinked_run [0, 1, 2, 3] (List.Perm.refl _) ty t path fuel s
  have hwired : linkInOrder (freshNodes path) [0, 1, 2, 3] = wired path := rfl
  rw [hwired] at hrun0
  simp only [List.headD_cons] at hrun0
  rw [hrun, hrun0]
  refine ⟨?_, ?_, ?_⟩
  · rw [(home_observable ty t path s (s.calls ++ pre)).1,
      (home_observable ty t path s (s.calls ++ pre0)).1]
  · exact (home_observable ty t path s _).2
  · cases ty <;> simp [homeOf, freshNodes, Node.new, accepts, LogMessage.type]

theorem relinked_order_same_outcome_witness :
    [2, 0, 3, 1].Perm [0, 1, 2, 3] ∧
      (observable (handle (linkInOrder (freshNodes "error_log.txt") [2, 0, 3, 1]) (0 + 4)
            ([2, 0, 3, 1].headD 0) ⟨LogType.Error, "disk full"⟩ emptyWorld)
          = observable (handle (wired "error_log.txt") (0 + 4) 0
              ⟨LogType.Error, "disk full"⟩ emptyWorld) ∧
        (handle (linkInOrder (freshNodes "error_log.txt") [2, 0, 3, 1]) (0 + 4)
            ([2, 0, 3, 1].headD 0) ⟨LogType.Error, "disk full"⟩ emptyWorld).map
            (fun x => x.1.calls.getLast?)
          = some (some (homeOf (LogMessage.mk LogType.Error "disk full").type)) ∧
        ((freshNodes "error_log.txt")[homeOf
            (LogMessage.mk LogType.Error "disk full").type]?).map
            (fun node => accepts node.kind (LogMessage.mk LogType.Error "disk full").type)
          = some true) :=
  ⟨by decide,
   relinked_order_same_outcome [2, 0, 3, 1] (by decide) ⟨LogType.Error, "disk full"⟩
     "error_log.txt" 0 emptyWorld⟩

/-! ## Linking -/

/-- What `setNext` does to each object: the one at `this` keeps its dynamic
type and gets the new `next_`, every other object is as before. -/
theorem setNext_getElem? (H : Heap) (this : Nat) (next : Option Nat) (q : Nat) :
    (setNext H this next)[q]? =
      (H[q]?).map (fun n => if this = q then { kind := n.kind, next_ := next } else n) := by
  unfold setNext
  rw [List.getElem?_modify]
  rfl

/-- A second `setNext` on the same object overwrites the first. -/
theorem setNext_setNext (H : Heap) (this : Nat) (a b : Option Nat) :
    setNext (setNext H this a) this b = setNext H this b := by
  apply List.ext_getElem?
  intro q
  simp only [setNext_getElem?]
  cases H[q]? <;> by_cases h : this = q <;> simp [h]

/-- C11. For every object `h` that does not take the message itself and all
successors `a` and `b`: after `h.setNext(a)` and then `h.setNext(b)` the
objects are exactly as after `h.setNext(b)` alone, so `a` is forgotten, and
`handle` on `h` is, once `h` is entered, the virtual call on `b`. A
`setNext` on `h` gives `h` the new successor and keeps its dynamic type
(with it the file path); every other object is untouched; a newly
constructed object has `next_ = nullptr`. -/
theorem setNext_last_write_wins (H : Heap) (h : Nat) (a : Option Nat) (b : Nat)
    (node : Node) (m : LogMessage) (fuel : Nat) (s : State)
    (hnode : H[h]? = some node) (hno : accepts node.kind m.type = false) :
    setNext (setNext H h a) h (some b) = setNext H h (some b) ∧
      handle (setNext (setNext H h a) h (some b)) (fuel + 1) h m s =
        handle (setNext (setNext H h a) h (some b)) fuel b m
          { s with calls := s.calls ++ [h] } ∧
      (setNext H h (some b))[h]? = some { kind := node.kind, next_ := some b } ∧
      (∀ q x, q ≠ h → (setNext H h x)[q]? = H[q]?) ∧
      (∀ k, (Node.new k).next_ = none) := by
  have hat : (setNext H h (some b))[h]? = some { kind := node.kind, next_ := some b } := by
    rw [setNext_getElem?, hnode]; simp
  refine ⟨setNext_setNext H h a (some b), ?_, hat, ?_, fun _ => rfl⟩
  · rw [setNext_setNext, handle_forward _ fuel h m s _ hat hno]
    rfl
  · intro q x hq
    rw [setNext_getElem?]
    cases H[q]? <;> simp [Ne.symm hq]

theorem setNext_last_write_wins_witness :
    (freshNodes "error_log.txt")[0]? = some (Node.new HandlerKind.FatalErrorHandler) ∧
      accepts (Node.new HandlerKind.FatalErrorHandler).kind
        (LogMessage.mk LogType.Warning "low disk").type = false ∧
      (setNext (setNext (freshNodes "error_log.txt") 0 (some 1)) 0 (some 2) =
          setNext (freshNodes "error_log.txt") 0 (some 2) ∧
        handle (setNext (setNext (freshNodes "error_log.txt") 0 (some 1)) 0 (some 2)) (1 + 1) 0
            ⟨LogType.Warning, "low disk"⟩ emptyWorld =
          handle (setNext (setNext (freshNodes "error_log.txt") 0 (some 1)) 0 (some 2)) 1 2
            ⟨LogType.Warning, "low disk"⟩
            { emptyWorld with calls := emptyWorld.calls ++ [0] } ∧
        (setNext (freshNodes "error_log.txt") 0 (some 2))[0]? =
          some { kind := (Node.new HandlerKind.FatalErrorHandler).kind, next_ := some 2 } ∧
        (∀ q x, q ≠ 0 →
          (setNext (freshNodes "error_log.txt") 0 x)[q]? = (freshNodes "error_log.txt")[q]?) ∧
        (∀ k, (Node.new k).next_ = none)) :=
  ⟨rfl, rfl,
   setNext_last_write_wins (freshNodes "error_log.txt") 0 (some 1) 2
     (Node.new HandlerKind.FatalErrorHandler) ⟨LogType.Warning, "low disk"⟩ 1 emptyWorld
     rfl rfl⟩

/-! ## The exit status -/

/-- C12. Whatever the environment (the log file openable or not), `main`
ends and returns 0: its `try` block ends in a thrown `std::runtime_error`,
the only type of condition a handler throws, and the state `main` returns
is the one its catch clause leaves. -/
theorem main_returns_zero (s : State) :
    ∃ s0 e, tryBlock (wired "error_log.txt") 4 0 demoMessages s = some (s0, some e) ∧
      main s = some (catchClause e s0, 0) := by
  cases hf : s.fs "error_log.txt" <;>
    simp [main, tryCatchBlock, tryBlock, demoMessages, handle, wired_eq, LogHandler.handle,
      FatalErrorHandler.handle, ErrorHandler.handle, WarningHandler.handle,
      LogMessage.type, LogMessage.message, hf, State.cout, State.cerr] <;>
    exact ⟨_, _, ⟨rfl, rfl⟩, rfl⟩

/-! ## Chains of any length -/

/-- An object that takes the message runs its own override and nothing
else: neither its `next_` nor the budget left matters. -/
theorem handle_accept (H : Heap) (fuel a : Nat) (m : LogMessage) (s : State)
    (node : Node) (ha : H[a]? = some node) (hyes : accepts node.kind m.type = true) :
    handle H (fuel + 1) a m s =
      ownAction node.kind m { s with calls := s.calls ++ [a] } := by
  rw [handle_succ, ha]
  cases hk : node.kind <;>
    simp_all [accepts, ownAction, FatalErrorHandler.handle, ErrorHandler.handle,
      WarningHandler.handle, UnknownHandler.handle]

/-- The override of an object that takes the message ends, and enters no
further object. -/
theorem ownAction_ends (k : HandlerKind) (m : LogMessage) (s : State)
    (hyes : accepts k m.type = true) :
    ∃ s1 thrown, ownAction k m s = some (s1, thrown) ∧ s1.calls = s.calls := by
  cases k with
  | LogHandler => simp [accepts] at hyes
  | FatalErrorHandler =>
    simp_all [accepts, ownAction, FatalErrorHandler.handle]
  | ErrorHandler path =>
    cases hf : s.fs path <;>
      simp_all [accepts, ownAction, ErrorHandler.handle, State.cerr]
  | WarningHandler =>
    simp_all [accepts, ownAction, WarningHandler.handle, State.cout]
  | UnknownHandler =>
    simp_all [accepts, ownAction, UnknownHandler.handle]

/-- A chain that reaches `nullptr` is read off the heap: two such chains
from the same pointer are the same. -/
theorem Links_unique (H : Heap) :
    ∀ (l1 l2 : List Nat) (p : Option Nat),
      Links H p l1 none → Links H p l2 none → l1 = l2 := by
  intro l1
  induction l1 with
  | nil =>
    intro l2 p h1 h2
    simp only [Links] at h1
    subst h1
    cases l2 with
    | nil => rfl
    | cons b r => simp [Links] at h2
  | cons a rest ih =>
    intro l2 p h1 h2
    simp only [Links] at h1
    obtain ⟨hp, hrest⟩ := h1
    subst hp
    cases l2 with
    | nil => simp [Links] at h2
    | cons b r =>
      simp only [Links] at h2
      obtain ⟨hb, hr⟩ := h2
      have hab : a = b := Option.some.inj hb
      subst hab
      cases ha : H[a]? with
      | none => simp [ha] at hrest
      | some node =>
        simp only [ha] at hrest hr
        rw [ih r node.next_ hrest hr]

/-- A chain can be cut anywhere: the part behind the cut is a chain from
the address it starts with. -/
theorem Links_tail (H : Heap) :
    ∀ (l1 : List Nat) (a : Nat) (l2 : List Nat) (p q : Option Nat),
      Links H p (l1 ++ a :: l2) q → Links H (some a) (a :: l2) q := by
  intro l1
  induction l1 with
  | nil =>
    intro a l2 p q h
    simp only [List.nil_append, Links] at h
    simp only [Links]
    exact ⟨trivial, h.2⟩
  | cons b rest ih =>
    intro a l2 p q h
    simp only [List.cons_append, Links] at h
    obtain ⟨_, hrest⟩ := h
    cases hb : H[b]? with
    | none => simp [hb] at hrest
    | some node =>
      simp only [hb] at hrest
      exact ih a l2 node.next_ q hrest

/-- A chain that reaches `nullptr` passes no object twice. -/
theorem Links_nodup (H : Heap) :
    ∀ (addrs : List Nat) (p : Option Nat), Links H p addrs none → addrs.Nodup := by
  intro addrs
  induction addrs with
  | nil => intro _ _; exact List.nodup_nil
  | cons a rest ih =>
    intro p h
    have hwhole : Links H (some a) (a :: rest) none := by
      simp only [Links] at h ⊢
      exact ⟨trivial, h.2⟩
    simp only [Links] at h
    obtain ⟨_, hrest⟩ := h
    cases ha : H[a]? with
    | none => simp [ha] at hrest
    | some node =>
      simp only [ha] at hrest
      refine List.nodup_cons.mpr ⟨?_, ih node.next_ hrest⟩
      intro hmem
      obtain ⟨l1, l2, hsplit⟩ := List.append_of_mem hmem
      rw [hsplit] at hrest
      have htail := Links_tail H l1 a l2 node.next_ none hrest
      have heq := Links_unique H (a :: l2) (a :: rest) (some a) htail hwhole
      have hlen := congrArg List.length heq
      rw [hsplit] at hlen
      simp at hlen
      omega

/-- On a chain that reaches `nullptr`, a budget of one call per object is
enough: `handle` ends, and the objects it entered are the first ones of
the chain, in order. -/
theorem handle_ends (H : Heap) (m : LogMessage) :
    ∀ (addrs : List Nat) (p fuel : Nat) (s : State),
      Links H (some p) addrs none → addrs.length ≤ fuel →
      ∃ s1 thrown entered, handle H fuel p m s = some (s1, thrown) ∧
        s1.calls = s.calls ++ entered ∧ entered <+: addrs := by
  intro addrs
  induction addrs with
  | nil =>
    intro p fuel s hl _
    simp [Links] at hl
  | cons a rest ih =>
    intro p fuel s hl hfuel
    simp only [Links] at hl
    obtain ⟨hp, hrest⟩ := hl
    have hpa : p = a := Option.some.inj hp
    subst hpa
    obtain ⟨f, rfl⟩ : ∃ f, fuel = f + 1 := ⟨fuel - 1, by simp at hfuel; omega⟩
    have hf : rest.length ≤ f := by simpa using hfuel
    cases ha : H[p]? with
    | none => simp [ha] at hrest
    | some node =>
      simp only [ha] at hrest
      cases hacc : accepts node.kind m.type with
      | true =>
        obtain ⟨s1, thrown, hown, hcalls⟩ :=
          ownAction_ends node.kind m { s with calls := s.calls ++ [p] } hacc
        refine ⟨s1, thrown, [p], ?_, hcalls, ?_⟩
        · rw [handle_accept H f p m s node ha hacc, hown]
        · exact ⟨rest, rfl⟩
      | false =>
        rw [handle_forward H f p m s node ha hacc]
        cases hnext : node.next_ with
        | none =>
          refine ⟨{ s with calls := s.calls ++ [p] }, none, [p], rfl, rfl, ⟨rest, rfl⟩⟩
        | some q =>
          rw [hnext] at hrest
          obtain ⟨s1, thrown, entered, hrun, hcalls, hpre⟩ :=
            ih q f { s with calls := s.calls ++ [p] } hrest hf
          refine ⟨s1, thrown, p :: entered, hrun, ?_, ?_⟩
          · simp [hcalls]
          · obtain ⟨t, ht⟩ := hpre
            exact ⟨t, by simp [← ht]⟩

/-- A message that only meets objects which do not take it uses up one
call of the budget per object: with fewer calls than objects the run does
not end within the budget. -/
theorem forward_starves (H : Heap) (m : LogMessage) :
    ∀ (addrs : List Nat) (p : Nat) (q : Option Nat) (fuel : Nat) (s : State),
      Links H (some p) addrs q → NoneAccepts H addrs m.type → fuel < addrs.length →
      handle H fuel p m s = none := by
  intro addrs
  induction addrs with
  | nil => intro p q fuel s _ _ hlt; simp at hlt
  | cons a rest ih =>
    intro p q fuel s hl hno hlt
    cases fuel with
    | zero => rfl
    | succ f =>
      simp only [Links] at hl
      obtain ⟨hp, hrest⟩ := hl
      have hpa : p = a := Option.some.inj hp
      subst hpa
      cases ha : H[p]? with
      | none => simp [ha] at hrest
      | some node =>
        simp only [ha] at hrest
        have hnode : accepts node.kind m.type = false :=
          hno p (List.mem_cons_self p rest) node ha
        have hno2 : NoneAccepts H rest m.type := fun b hb n hn =>
          hno b (List.mem_cons_of_mem p hb) n hn
        rw [handle_forward H f p m s node ha hnode]
        cases rest with
        | nil => simp at hlt
        | cons b r2 =>
          have hb : node.next_ = some b := by
            simp only [Links] at hrest
            exact hrest.1
          rw [hb] at hrest
          have hlt2 : f < (b :: r2).length := by simpa using hlt
          simp only [hb, LogHandler.handle]
          exact ih b q f _ hrest hno2 hlt2

/-- On a cycle of objects none of which takes the message, no budget is
enough: the forwarding recursion does not return. -/
theorem cycle_never_returns (H : Heap) (m : LogMessage) (p : Nat) (cyc : List Nat)
    (hne : cyc ≠ []) (hcyc : Links H (some p) cyc (some p))
    (hno : NoneAccepts H cyc m.type) :
    ∀ (fuel : Nat) (s : State), handle H fuel p m s = none := by
  intro fuel
  induction fuel using Nat.strong_induction_on with
  | _ fuel ih =>
    intro s
    by_cases hlt : fuel < cyc.length
    · exact forward_starves H m cyc p (some p) fuel s hcyc hno hlt
    · obtain ⟨k, rfl⟩ : ∃ k, fuel = k + cyc.length := ⟨fuel - cyc.length, by omega⟩
      have hpos : 0 < cyc.length := List.length_pos.mpr hne
      rw [handle_reaches H p p cyc m k s hcyc hno]
      exact ih k (by omega) _

/-- C15. For every heap and every message: when following `next_` from
`head` passes objects that do not take the message and then arrives at an
object that does, the objects before it hand the message and the
environment on unchanged (only entered), the outcome of `handle` from the
head is what that first matching object does in its own override, the run
ends, and that object is the last one entered, whatever is linked behind
it. -/
theorem first_match_wins (H : Heap) (head a : Nat) (pre : List Nat) (node : Node)
    (m : LogMessage) (fuel : Nat) (s : State)
    (hlinks : Links H (some head) pre (some a)) (hpre : NoneAccepts H pre m.type)
    (hnode : H[a]? = some node) (hyes : accepts node.kind m.type = true)
    (hfuel : pre.length < fuel) :
    handle H fuel head m s =
        handle H (fuel - pre.length) a m { s with calls := s.calls ++ pre } ∧
      handle H fuel head m s =
        ownAction node.kind m { s with calls := s.calls ++ pre ++ [a] } ∧
      ∃ s1 thrown,
        ownAction node.kind m { s with calls := s.calls ++ pre ++ [a] } = some (s1, thrown) ∧
        s1.calls = s.calls ++ pre ++ [a] := by
  obtain ⟨k, rfl⟩ : ∃ k, fuel = (k + 1) + pre.length :=
    ⟨fuel - (pre.length + 1), by omega⟩
  have hreach := handle_reaches H head a pre m (k + 1) s hlinks hpre
  have hown := handle_accept H k a m { s with calls := s.calls ++ pre } node hnode hyes
  refine ⟨?_, ?_, ?_⟩
  · rw [hreach, Nat.add_sub_cancel]
  · rw [hreach, hown]
  · exact ownAction_ends node.kind m _ hyes

theorem first_match_wins_witness :
    Links (linkInOrder [Node.new HandlerKind.WarningHandler,
        Node.new (HandlerKind.ErrorHandler "a.log"),
        Node.new (HandlerKind.ErrorHandler "b.log")] [0, 1, 2]) (some 0) [0] (some 1) ∧
      NoneAccepts (linkInOrder [Node.new HandlerKind.WarningHandler,
        Node.new (HandlerKind.ErrorHandler "a.log"),
        Node.new (HandlerKind.ErrorHandler "b.log")] [0, 1, 2]) [0]
        (LogMessage.mk LogType.Error "disk full").type ∧
      (linkInOrder [Node.new HandlerKind.WarningHandler,
        Node.new (HandlerKind.ErrorHandler "a.log"),
        Node.new (HandlerKind.ErrorHandler "b.log")] [0, 1, 2])[1]? =
        some ⟨HandlerKind.ErrorHandler "a.log", some 2⟩ ∧
      accepts (Node.mk (HandlerKind.ErrorHandler "a.log") (some 2)).kind
        (LogMessage.mk LogType.Error "disk full").type = true ∧
      [0].length < 3 ∧
      (handle (linkInOrder [Node.new HandlerKind.WarningHandler,
            Node.new (HandlerKind.ErrorHandler "a.log"),
            Node.new (HandlerKind.ErrorHandler "b.log")] [0, 1, 2]) 3 0
            ⟨LogType.Error, "disk full"⟩
            { emptyWorld with fs := fun q =>
                if q = "a.log" then FileState.unopenable else FileState.absent } =
          handle (linkInOrder [Node.new HandlerKind.WarningHandler,
            Node.new (HandlerKind.ErrorHandler "a.log"),
            Node.new (HandlerKind.ErrorHandler "b.log")] [0, 1, 2]) (3 - [0].length) 1
            ⟨LogType.Error, "disk full"⟩
            { emptyWorld with
                fs := fun q =>
                  if q = "a.log" then FileState.unopenable else FileState.absent,
                calls := [] ++ [0] } ∧
        handle (linkInOrder [Node.new HandlerKind.WarningHandler,
            Node.new (HandlerKind.ErrorHandler "a.log"),
            Node.new (HandlerKind.ErrorHandler "b.log")] [0, 1, 2]) 3 0
            ⟨LogType.Error, "disk full"⟩
            { emptyWorld with fs := fun q =>
                if q = "a.log" then FileState.unopenable else FileState.absent } =
          ownAction (HandlerKind.ErrorHandler "a.log") ⟨LogType.Error, "disk full"⟩
            { emptyWorld with
                fs := fun q =>
                  if q = "a.log" then FileState.unopenable else FileState.absent,
                calls := [] ++ [0] ++ [1] } ∧
        ∃ s1 thrown,
          ownAction (HandlerKind.ErrorHandler "a.log") ⟨LogType.Error, "disk full"⟩
            { emptyWorld with
                fs := fun q =>
                  if q = "a.log" then FileState.unopenable else FileState.absent,
                calls := [] ++ [0] ++ [1] } = some (s1, thrown) ∧
          s1.calls = [] ++ [0] ++ [1]) ∧
      (handle (linkInOrder [Node.new HandlerKind.WarningHandler,
          Node.new (HandlerKind.ErrorHandler "a.log"),
          Node.new (HandlerKind.ErrorHandler "b.log")] [0, 1, 2]) 3 0
          ⟨LogType.Error, "disk full"⟩
          { emptyWorld with fs := fun q =>
              if q = "a.log" then FileState.unopenable else FileState.absent }).map
        (fun r => (r.1.stdout, r.1.stderr, r.1.fs "a.log", r.1.fs "b.log", r.1.calls, r.2)) =
        some ("", "Failed to open file: a.log\n", FileState.unopenable, FileState.absent,
          [0, 1], none) :=
  ⟨by simp [Links, linkInOrder, setNext, Node.new],
   by simp [NoneAccepts, linkInOrder, setNext, Node.new, accepts, LogMessage.type],
   rfl, rfl, by decide,
   first_match_wins (linkInOrder [Node.new HandlerKind.WarningHandler,
       Node.new (HandlerKind.ErrorHandler "a.log"),
       Node.new (HandlerKind.ErrorHandler "b.log")] [0, 1, 2]) 0 1 [0]
     ⟨HandlerKind.ErrorHandler "a.log", some 2⟩ ⟨LogType.Error, "disk full"⟩ 3
     { emptyWorld with fs := fun q =>
         if q = "a.log" then FileState.unopenable else FileState.absent }
     (by simp [Links, linkInOrder, setNext, Node.new])
     (by simp [NoneAccepts, linkInOrder, setNext, Node.new, accepts, LogMessage.type])
     rfl rfl (by decide),
   by rfl⟩

/-- C16. For every chain whose links lead from `head` through `n` objects to
`nullptr`, and a budget of at least `n` calls: `handle` from the head ends,
and the objects entered are the first ones of the chain, so at most `n` and
none twice. Without that the run need not end: an object whose `next_` is
itself, and more generally any cycle of objects none of which takes the
message, makes `handle` not return within any budget. -/
theorem handle_terminates_on_acyclic_chain (H : Heap) (head : Nat) (addrs : List Nat)
    (m : LogMessage) (fuel : Nat) (s : State)
    (hlinks : Links H (some head) addrs none) (hfuel : addrs.length ≤ fuel) :
    (∃ s1 thrown entered, handle H fuel head m s = some (s1, thrown) ∧
        s1.calls = s.calls ++ entered ∧ entered <+: addrs ∧
        entered.length ≤ addrs.length ∧ entered.Nodup) ∧
      (∀ budget s2,
        handle (setNext [Node.new HandlerKind.LogHandler] 0 (some 0)) budget 0 m s2 = none) ∧
      (∀ (H2 : Heap) (p : Nat) (cyc : List Nat), cyc ≠ [] →
        Links H2 (some p) cyc (some p) → NoneAccepts H2 cyc m.type →
        ∀ budget s2, handle H2 budget p m s2 = none) := by
  refine ⟨?_, ?_, ?_⟩
  · obtain ⟨s1, thrown, entered, hrun, hcalls, hpre⟩ :=
      handle_ends H m addrs head fuel s hlinks hfuel
    refine ⟨s1, thrown, entered, hrun, hcalls, hpre, hpre.length_le, ?_⟩
    exact (Links_nodup H addrs (some head) hlinks).sublist hpre.sublist
  · intro budget s2
    refine cycle_never_returns _ m 0 [0] (by simp) ?_ ?_ budget s2
    · simp [Links, setNext, Node.new]
    · simp [NoneAccepts, setNext, Node.new, accepts]
  · intro H2 p cyc hne hcyc hno budget s2
    exact cycle_never_returns H2 m p cyc hne hcyc hno budget s2

theorem handle_terminates_on_acyclic_chain_witness :
    Links (wired "error_log.txt") (some 0) [0, 1, 2, 3] none ∧
      [0, 1, 2, 3].length ≤ 4 ∧
      ((∃ s1 thrown entered,
          handle (wired "error_log.txt") 4 0 ⟨LogType.Unknown, "??"⟩ emptyWorld
            = some (s1, thrown) ∧
          s1.calls = emptyWorld.calls ++ entered ∧ entered <+: [0, 1, 2, 3] ∧
          entered.length ≤ [0, 1, 2, 3].length ∧ entered.Nodup) ∧
        (∀ budget s2,
          handle (setNext [Node.new HandlerKind.LogHandler] 0 (some 0)) budget 0
            ⟨LogType.Unknown, "??"⟩ s2 = none) ∧
        (∀ (H2 : Heap) (p : Nat) (cyc : List Nat), cyc ≠ [] →
          Links H2 (some p) cyc (some p) →
          NoneAccepts H2 cyc (LogMessage.mk LogType.Unknown "??").type →
          ∀ budget s2, handle H2 budget p ⟨LogType.Unknown, "??"⟩ s2 = none)) :=
  ⟨by simp [Links, wired_eq], by decide,
   handle_terminates_on_acyclic_chain (wired "error_log.txt") 0 [0, 1, 2, 3]
     ⟨LogType.Unknown, "??"⟩ 4 emptyWorld (by simp [Links, wired_eq]) (by decide)⟩

/-! ## The objects during a call -/

/-- A call on the whole process leaves the objects as they were and does to
the environment what `handle` does. -/
theorem handleOn_eq (H : Heap) (m : LogMessage) :
    ∀ (fuel p : Nat) (s : State),
      handleOn fuel p m ⟨H, s⟩ =
        (handle H fuel p m s).map (fun r => (⟨H, r.1⟩, r.2)) := by
  intro fuel
  induction fuel with
  | zero => intro p s; rfl
  | succ f ih =>
    intro p s
    rw [handle_succ]
    simp only [handleOn]
    cases hp : H[p]? with
    | none => rfl
    | some node =>
      obtain ⟨kind, next⟩ := node
      cases kind <;> cases next <;>
        simp only [LogHandler.handleOn, LogHandler.handle, FatalErrorHandler.handleOn,
          FatalErrorHandler.handle, ErrorHandler.handleOn, ErrorHandler.handle,
          WarningHandler.handleOn, WarningHandler.handle, UnknownHandler.handleOn,
          UnknownHandler.handle, ih] <;>
        (try split_ifs) <;> (try rfl) <;>
        (cases s.fs _ <;> rfl)

/-- Entering one more object first is part of the effect. -/
theorem Effect.after_entered (e : Effect) (t : State) (p : Nat) :
    e.after { t with calls := t.calls ++ [p] } =
      ({ e with entered := p :: e.entered } : Effect).after t := by
  simp [Effect.after]

/-- An effect that writes only to files that can be opened leaves the same
files openable. -/
theorem SameOpen_after (e : Effect) (s : State)
    (hfile : ∀ path bytes, e.file = some (path, bytes) → s.fs path ≠ FileState.unopenable) :
    SameOpen s (e.after s) := by
  intro q
  obtain ⟨out, err, file, entered, thrown⟩ := e
  cases file with
  | none => simp [Effect.after]
  | some pb =>
    obtain ⟨path, bytes⟩ := pb
    have hp := hfile path bytes rfl
    by_cases hq : q = path
    · subst hq
      simp [Effect.after, writeFile, hp]
    · simp [Effect.after, writeFile, hq]

/-- What a call does is one effect, the same from every environment in
which the same files can be opened; it writes only to a file that can be
opened. -/
theorem handle_effect (H : Heap) (m : LogMessage) :
    ∀ (fuel p : Nat) (s : State),
      (∀ t, SameOpen s t → handle H fuel p m t = none) ∨
      ∃ e : Effect,
        (∀ path bytes, e.file = some (path, bytes) → s.fs path ≠ FileState.unopenable) ∧
        ∀ t, SameOpen s t → handle H fuel p m t = some (e.after t, e.thrown) := by
  intro fuel
  induction fuel with
  | zero => intro p s; exact Or.inl (fun _ _ => rfl)
  | succ f ih =>
    intro p s
    cases hp : H[p]? with
    | none =>
      left
      intro t _
      rw [handle_succ, hp]
    | some node =>
      cases hacc : accepts node.kind m.type with
      | false =>
        cases hn : node.next_ with
        | none =>
          right
          refine ⟨⟨"", "", none, [p], none⟩, by simp, ?_⟩
          intro t _
          rw [handle_forward H f p m t node hp hacc, hn]
          simp [LogHandler.handle, Effect.after]
        | some q =>
          rcases ih q { s with calls := s.calls ++ [p] } with hnone | ⟨e, hfile, hrun⟩
          · left
            intro t ht
            rw [handle_forward H f p m t node hp hacc, hn]
            exact hnone { t with calls := t.calls ++ [p] } ht
          · right
            refine ⟨{ e with entered := p :: e.entered }, hfile, ?_⟩
            intro t ht
            rw [handle_forward H f p m t node hp hacc, hn]
            show handle H f q m { t with calls := t.calls ++ [p] } = _
            rw [hrun { t with calls := t.calls ++ [p] } ht, Effect.after_entered]
      | true =>
        right
        obtain ⟨kind, next⟩ := node
        cases kind with
        | LogHandler => simp [accepts] at hacc
        | FatalErrorHandler =>
          refine ⟨⟨"", "", none, [p], some ⟨"Fatal Error: " ++ m.message⟩⟩, by simp, ?_⟩
          intro t _
          rw [handle_accept H f p m t _ hp hacc]
          simp_all [accepts, ownAction, FatalErrorHandler.handle, Effect.after]
        | ErrorHandler path =>
          by_cases hopen : s.fs path = FileState.unopenable
          · refine ⟨⟨"", "Failed to open file: " ++ path ++ "\n", none, [p], none⟩, by simp, ?_⟩
            intro t ht
            have htp : t.fs path = FileState.unopenable := (ht path).mp hopen
            rw [handle_accept H f p m t _ hp hacc]
            simp_all [accepts, ownAction, ErrorHandler.handle, Effect.after, State.cerr,
              String.append_assoc]
          · refine ⟨⟨"", "", some (path, "Error: " ++ m.message ++ "\n"), [p], none⟩, ?_, ?_⟩
            · intro path2 bytes heq
              simp at heq
              rw [← heq.1]
              exact hopen
            · intro t ht
              have htp : t.fs path ≠ FileState.unopenable := fun h => hopen ((ht path).mpr h)
              rw [handle_accept H f p m t _ hp hacc]
              cases hf : t.fs path with
              | unopenable => exact absurd hf htp
              | absent =>
                simp_all [accepts, ownAction, ErrorHandler.handle, Effect.after,
                  FileState.bytes]
              | content b =>
                simp_all [accepts, ownAction, ErrorHandler.handle, Effect.after,
                  FileState.bytes, String.append_assoc]
        | WarningHandler =>
          refine ⟨⟨"Warning: " ++ m.message ++ "\n", "", none, [p], none⟩, by simp, ?_⟩
          intro t _
          rw [handle_accept H f p m t _ hp hacc]
          simp_all [accepts, ownAction, WarningHandler.handle, Effect.after, State.cout,
            String.append_assoc]
        | UnknownHandler =>
          refine ⟨⟨"", "", none, [p], some ⟨"Unknown message: " ++ m.message⟩⟩, by simp, ?_⟩
          intro t _
          rw [handle_accept H f p m t _ hp hacc]
          simp_all [accepts, ownAction, UnknownHandler.handle, Effect.after]

/-- C13. For every chain that reaches `nullptr`, every message and every
environment: a call of `handle` on the whole process ends (normally or by a
throw) and leaves every object as it was, so each `next_` and the file path
of each `ErrorHandler` are the same after as before; a second dispatch of
the same message has the same effect as the first (the same objects
entered in the same order, the same bytes added to the streams and to the
file, the same thrown condition) and again leaves the objects as they
were. The first part holds for any heap, budget and start address. -/
theorem handle_leaves_objects_unchanged (H : Heap) (head : Nat) (addrs : List Nat)
    (m : LogMessage) (fuel : Nat) (s : State)
    (hlinks : Links H (some head) addrs none) (hfuel : addrs.length ≤ fuel) :
    (∀ budget p M1 thrown, handleOn budget p m ⟨H, s⟩ = some (M1, thrown) → M1.heap = H) ∧
      ∃ e : Effect,
        handleOn fuel head m ⟨H, s⟩ = some (⟨H, e.after s⟩, e.thrown) ∧
        handleOn fuel head m ⟨H, e.after s⟩ = some (⟨H, e.after (e.after s)⟩, e.thrown) := by
  constructor
  · intro budget p M1 thrown hrun
    rw [handleOn_eq] at hrun
    cases hh : handle H budget p m s with
    | none => simp [hh] at hrun
    | some r =>
      simp [hh] at hrun
      rw [← hrun.1]
  · have hrefl : SameOpen s s := fun _ => Iff.rfl
    obtain ⟨s1, thrown, entered, hrun, _, _⟩ := handle_ends H m addrs head fuel s hlinks hfuel
    rcases handle_effect H m fuel head s with hnone | ⟨e, hfile, heff⟩
    · rw [hnone s hrefl] at hrun
      simp at hrun
    · refine ⟨e, ?_, ?_⟩
      · rw [handleOn_eq, heff s hrefl]
        rfl
      · rw [handleOn_eq, heff (e.after s) (SameOpen_after e s hfile)]
        rfl

theorem handle_leaves_objects_unchanged_witness :
    Links (wired "error_log.txt") (some 0) [0, 1, 2, 3] none ∧
      [0, 1, 2, 3].length ≤ 4 ∧
      ((∀ budget p M1 thrown,
          handleOn budget p ⟨LogType.Error, "disk full"⟩ ⟨wired "error_log.txt", emptyWorld⟩
            = some (M1, thrown) → M1.heap = wired "error_log.txt") ∧
        ∃ e : Effect,
          handleOn 4 0 ⟨LogType.Error, "disk full"⟩ ⟨wired "error_log.txt", emptyWorld⟩ =
            some (⟨wired "error_log.txt", e.after emptyWorld⟩, e.thrown) ∧
          handleOn 4 0 ⟨LogType.Error, "disk full"⟩
              ⟨wired "error_log.txt", e.after emptyWorld⟩ =
            some (⟨wired "error_log.txt", e.after (e.after emptyWorld)⟩, e.thrown)) :=
  ⟨by simp [Links, wired_eq], by decide,
   handle_leaves_objects_unchanged (wired "error_log.txt") 0 [0, 1, 2, 3]
     ⟨LogType.Error, "disk full"⟩ 4 emptyWorld (by simp [Links, wired_eq]) (by decide)⟩

/-! ## The explicit driver -/

/-- A node whose category does not match forwards. -/
theorem nodeOutcome_forward (k : HandlerKind) (m : LogMessage)
    (hno : accepts k m.type = false) : nodeOutcome k m = Outcome.Forward := by
  cases k <;> cases hty : m.type <;> simp_all [accepts, nodeOutcome]

/-- At an object that takes the message, the driver's step shows an
observer what the object's own override shows. -/
theorem driver_step_accept (k : HandlerKind) (rest : List HandlerKind) (m : LogMessage)
    (s : State) (c : List Nat) (hyes : accepts k m.type = true) :
    observable (ownAction k m { s with calls := c }) =
      observable (some (chainDriver (k :: rest) m s)) := by
  cases k with
  | LogHandler => simp [accepts] at hyes
  | FatalErrorHandler =>
    simp_all [accepts, ownAction, chainDriver, nodeOutcome, observable,
      FatalErrorHandler.handle]
  | ErrorHandler path =>
    cases hf : s.fs path <;>
      simp_all [accepts, ownAction, chainDriver, nodeOutcome, observable,
        ErrorHandler.handle, State.cerr, FileState.bytes, String.append_assoc]
  | WarningHandler =>
    simp_all [accepts, ownAction, chainDriver, nodeOutcome, observable,
      WarningHandler.handle, State.cout]
  | UnknownHandler =>
    simp_all [accepts, ownAction, chainDriver, nodeOutcome, observable,
      UnknownHandler.handle]

/-- The driver on the dynamic types of a chain shows an observer what the
recursive virtual `handle` from the head of the chain shows, whatever the
ghost list of objects entered. -/
theorem driver_matches (H : Heap) (m : LogMessage) :
    ∀ (addrs : List Nat) (p fuel : Nat) (s : State) (c : List Nat),
      Links H (some p) addrs none → addrs.length ≤ fuel →
      observable (handle H fuel p m { s with calls := c }) =
        observable (some (chainDriver (kindsAt H addrs) m s)) := by
  intro addrs
  induction addrs with
  | nil =>
    intro p fuel s c hl _
    simp [Links] at hl
  | cons a rest ih =>
    intro p fuel s c hl hfuel
    simp only [Links] at hl
    obtain ⟨hp, hrest⟩ := hl
    have hpa : p = a := Option.some.inj hp
    subst hpa
    obtain ⟨f, rfl⟩ : ∃ f, fuel = f + 1 := ⟨fuel - 1, by simp at hfuel; omega⟩
    have hf : rest.length ≤ f := by simpa using hfuel
    cases ha : H[p]? with
    | none => simp [ha] at hrest
    | some node =>
      simp only [ha] at hrest
      have hkinds : kindsAt H (p :: rest) = node.kind :: kindsAt H rest := by
        simp [kindsAt, ha]
      rw [hkinds]
      cases hacc : accepts node.kind m.type with
      | true =>
        rw [handle_accept H f p m _ node ha hacc]
        exact driver_step_accept node.kind _ m s _ hacc
      | false =>
        rw [handle_forward H f p m _ node ha hacc]
        have hdrv : chainDriver (node.kind :: kindsAt H rest) m s =
            chainDriver (kindsAt H rest) m s := by
          simp [chainDriver, nodeOutcome_forward node.kind m hacc]
        rw [hdrv]
        cases hnext : node.next_ with
        | none =>
          rw [hnext] at hrest
          cases rest with
          | nil => rfl
          | cons b r => simp [Links] at hrest
        | some q =>
          rw [hnext] at hrest
          exact ih q f s (c ++ [p]) hrest hf

/-- C14. For every chain that reaches `nullptr`, every message and every
environment (any state of the files): the explicit driver, run on the
dynamic types of the chain's objects in chain order, yields the same
standard output, standard error and files and the same normal return or
thrown description as the recursive virtual `handle` from the head, which
ends within a budget of one call per object. -/
theorem driver_refines_handle (H : Heap) (head : Nat) (addrs : List Nat)
    (m : LogMessage) (fuel : Nat) (s : State)
    (hlinks : Links H (some head) addrs none) (hfuel : addrs.length ≤ fuel) :
    observable (handle H fuel head m s) =
      observable (some (chainDriver (kindsAt H addrs) m s)) :=
  driver_matches H m addrs head fuel s s.calls hlinks hfuel

theorem driver_refines_handle_witness :
    Links (wired "error_log.txt") (some 0) [0, 1, 2, 3] none ∧
      [0, 1, 2, 3].length ≤ 4 ∧
      observable (handle (wired "error_log.txt") 4 0 ⟨LogType.Error, "disk full"⟩ emptyWorld) =
        observable (some (chainDriver (kindsAt (wired "error_log.txt") [0, 1, 2, 3])
          ⟨LogType.Error, "disk full"⟩ emptyWorld)) :=
  ⟨by simp [Links, wired_eq], by decide,
   driver_refines_handle (wired "error_log.txt") 0 [0, 1, 2, 3]
     ⟨LogType.Error, "disk full"⟩ 4 emptyWorld (by simp [Links, wired_eq]) (by decide)⟩

end LogChain
